import Mathlib

/-!
Shallow embedding of the metric computation and aggregation engine of the
package-trustworthiness scorer (TypeScript sources: `netScore.ts`,
`busFactor.ts`, `correctness.ts`, `maintainability.ts`, `license.ts`,
`rampUp.ts`).  JavaScript numbers are modelled as exact rationals; the one
place where the code can produce a non-finite value (`0 / 0`, which is `NaN`
in JavaScript) is modelled by `Option ℚ` with `none` standing for the
non-finite outcome.  Asynchronous I/O (API fetches, git clones, filesystem
walks) is modelled by passing the fetched data, or an error marker, as an
explicit environment value.
-/

/-- Division as JavaScript performs it on finite operands: a finite quotient
when the divisor is nonzero, and a non-finite value (`NaN` for `0 / 0`,
`±Infinity` otherwise), modelled as `none`, when the divisor is zero. -/
def jsDiv (a b : ℚ) : Option ℚ :=
  if b = 0 then none else some (a / b)

namespace BusFactor

/-- Stable insertion of one `(author, commitCount)` entry into a list already
sorted by commit count descending; models one step of the JavaScript
`sort((a, b) => b[1] - a[1])`, which is a stable sort. -/
def insertByCountDesc (x : String × ℕ) : List (String × ℕ) → List (String × ℕ)
  | [] => [x]
  | y :: ys => if x.2 ≤ y.2 then y :: insertByCountDesc x ys else x :: y :: ys

/-- Sorting of the commit histogram entries by commit count descending
(`Array.from(commitData.entries()).sort((a, b) => b[1] - a[1])`). -/
def sortByCountDesc : List (String × ℕ) → List (String × ℕ)
  | [] => []
  | x :: xs => insertByCountDesc x (sortByCountDesc xs)

/-- Total number of commits in the histogram
(`Array.from(commitData.values()).reduce((a, b) => a + b, 0)`). -/
def totalCommits (commitData : List (String × ℕ)) : ℕ :=
  (commitData.map (fun p => p.2)).sum

/-- The `while (commitSum < totalCommits * 0.85)` loop of
`calculateBusFactor`: starting from the running sum `acc`, consume sorted
commit counts while the running sum is below `target` and return the number
`i` of contributors consumed. -/
def consumeCount : List ℕ → ℚ → ℚ → ℕ
  | [], _, _ => 0
  | c :: rest, acc, target =>
    if acc < target then consumeCount rest (acc + (c : ℚ)) target + 1 else 0

/-- Embedding of `BusFactor.calculateBusFactor` (the 85%-threshold version):
sort contributors by commit count descending, count how many are needed to
reach 85% of all commits, and return `Math.min(i / n * 2, 1)`.  The result is
`none` exactly when the division `i / sortedContributors.length` has a zero
divisor (an empty histogram), in which case JavaScript computes `0 / 0 = NaN`
and `Math.min(NaN, 1) = NaN`. -/
def calculateBusFactor (commitData : List (String × ℕ)) : Option ℚ :=
  let total : ℕ := totalCommits commitData
  let sortedContributors := sortByCountDesc commitData
  let i := consumeCount (sortedContributors.map (fun p => p.2)) 0
      ((total : ℚ) * (85 / 100))
  (jsDiv (i : ℚ) (sortedContributors.length : ℚ)).map
    (fun rawBusFactor => min (rawBusFactor * 2) 1)

/-- Embedding of `BusFactor.evaluate`: when the remaining API quota is zero
the method returns `-1` before fetching any commit data (the `busFactor`
field keeps its initial `-1`); otherwise it fetches the commit histogram and
stores `calculateBusFactor` of it.  The boolean records whether the
repository data fetch (`getCommitData`) was performed. -/
def run (remaining : ℕ) (commitData : List (String × ℕ)) : Option ℚ × Bool :=
  if remaining = 0 then (some (-1), false) else (calculateBusFactor commitData, true)

end BusFactor

namespace Correctness

/-- Embedding of `Correctness.calculateCorrectness`: given the states of the
bug-labeled issues fetched by `fetchIssuesData` (or `none` when the fetch
threw), return `1` when no bug-labeled issues exist, otherwise
`1 - openBugIssues / totalOpenIssues`; a fetch error yields `-1`. -/
def calculateCorrectness (issueStates : Option (List String)) : ℚ :=
  match issueStates with
  | none => -1
  | some states =>
    let totalOpenIssues := states.length
    let openBugIssues := (states.filter (fun s => s == "open")).length
    if totalOpenIssues = 0 then 1
    else 1 - (openBugIssues : ℚ) / (totalOpenIssues : ℚ)

/-- Embedding of `Correctness.evaluate`: quota zero returns `-1` before the
issue fetch (the field keeps its initial `-1`); otherwise the issues are
fetched and scored.  The boolean records whether the fetch happened. -/
def run (remaining : ℕ) (issueStates : Option (List String)) : ℚ × Bool :=
  if remaining = 0 then (-1, false) else (calculateCorrectness issueStates, true)

end Correctness

namespace Maintainability

/-- One sampled issue as used by `calculateMaintainability`: its state, its
creation timestamp and its optional closure timestamp, in milliseconds since
the epoch. -/
structure IssueRec where
  state : String
  createdAt : ℚ
  closedAt : Option ℚ
deriving DecidableEq

/-- One iteration of the `for (const issue of issues)` loop: a closed issue
with a closure timestamp contributes its resolution time in days
(`(closedAt - createdAt) / (1000 * 60 * 60 * 24)`) to the running total and
bumps the resolved-issue count. -/
def maintStep (acc : ℚ × ℕ) (issue : IssueRec) : ℚ × ℕ :=
  if issue.state == "closed" then
    match issue.closedAt with
    | some closedAt =>
      (acc.1 + (closedAt - issue.createdAt) / (1000 * 60 * 60 * 24), acc.2 + 1)
    | none => acc
  else acc

/-- Accumulated `(totalResolutionTime, resolvedIssuesCount)` over the sampled
issues. -/
def resolutionStats (issues : List IssueRec) : ℚ × ℕ :=
  issues.foldl maintStep (0, 0)

/-- Average resolution time in days:
`resolvedIssuesCount > 0 ? totalResolutionTime / resolvedIssuesCount : 0`. -/
def averageResolutionTimeDays (issues : List IssueRec) : ℚ :=
  let stats := resolutionStats issues
  if stats.2 > 0 then stats.1 / (stats.2 : ℚ) else 0

/-- Embedding of `Maintainability.calculateMaintainability`: `0` when the
average resolution time exceeds 14 days, otherwise `1 - average / 14`;
a fetch error (`none`) yields `-1`. -/
def calculateMaintainability (issues : Option (List IssueRec)) : ℚ :=
  match issues with
  | none => -1
  | some sampled =>
    let avg := averageResolutionTimeDays sampled
    if avg > 14 then 0 else 1 - avg / 14

/-- Embedding of `Maintainability.evaluate`: quota zero returns `-1` before
the issue fetch; otherwise the issues are fetched and scored.  The boolean
records whether the fetch happened. -/
def run (remaining : ℕ) (issues : Option (List IssueRec)) : ℚ × Bool :=
  if remaining = 0 then (-1, false) else (calculateMaintainability issues, true)

/-- Validity of a sampled issue: when it carries a closure timestamp, the
closure is not before the creation (true of every issue set returned by the
issue tracker). -/
def issueValid (issue : IssueRec) : Bool :=
  match issue.closedAt with
  | some closedAt => decide (issue.createdAt ≤ closedAt)
  | none => true

end Maintainability

/-- Case-insensitive character comparison (JavaScript case-insensitive
regex matching on ASCII text). -/
def charsEqCI (p c : Char) : Bool := p.toLower == c.toLower

/-- Cases-insensitive prefix test on character lists. -/
def prefixCI : List Char → List Char → Bool
  | [], _ => true
  | _ :: _, [] => false
  | p :: ps, c :: cs => charsEqCI p c && prefixCI ps cs

/-- Case-insensitive substring test on character lists. -/
def containsCIAux (pat : List Char) : List Char → Bool
  | [] => prefixCI pat []
  | c :: cs => prefixCI pat (c :: cs) || containsCIAux pat cs

/-- Plain (case-sensitive) prefix test on character lists. -/
def prefixCS : List Char → List Char → Bool
  | [], _ => true
  | _ :: _, [] => false
  | p :: ps, c :: cs => p == c && prefixCS ps cs

/-- Plain substring test on character lists (JavaScript
`String.prototype.includes`). -/
def containsCS (pat : List Char) : List Char → Bool
  | [] => prefixCS pat []
  | c :: cs => prefixCS pat (c :: cs) || containsCS pat cs

/-- JavaScript `String.prototype.toLowerCase` on the character list of a
string (the texts involved are ASCII, where `Char.toLower` agrees with it). -/
def lowerChars (cs : List Char) : List Char := cs.map Char.toLower

/-- The whitespace characters matched by the regex class `\s` on the ASCII
range (the Unicode space classes are irrelevant to the texts involved). -/
def jsWhitespace (c : Char) : Bool :=
  c == ' ' || c == '\t' || c == '\n' || c == '\r' || c == '\x0b' || c == '\x0c'

/-- Outcome of a checkout-based scorer's interaction with the outside world:
the `git.clone` call threw (possibly leaving a partially created scratch
directory behind), a later filesystem step (directory walk / file read)
threw, or everything succeeded and produced the value `data` (the scratch
directory having been created by the clone). -/
inductive CheckoutEnv (α : Type) where
  | cloneFail (leftPartialDir : Bool)
  | stepFail
  | ok (data : α)

/-- Semantics of `fs.rmSync(cloneDir, { recursive: true, force: true })`:
whatever the prior state of the scratch directory, after the call it does not
exist (`force: true` suppresses the missing-directory error). -/
def rmSyncForce (_dirExists : Bool) : Bool := false

/-- Scratch-directory state right after the `git.clone` call of a
checkout-based scorer: a successful clone created the directory; a failed
clone may or may not have left a partial directory behind. -/
def dirAfterClone {α : Type} : CheckoutEnv α → Bool
  | .cloneFail leftPartialDir => leftPartialDir
  | .stepFail => true
  | .ok _ => true

namespace License

/-- Filename test `/^readme\.(md|txt)?$/i` used on the top-level directory
entries (note the mandatory dot: a bare `README` does not match). -/
def matchesReadmeName (name : String) : Bool :=
  let l := lowerChars name.data
  l == "readme.".data || l == "readme.md".data || l == "readme.txt".data

/-- Filename test `/^licen[sc]e(\..*)?$/i` used on the top-level directory
entries (`.*` never matching a newline is irrelevant to filenames). -/
def matchesLicenseFileName (name : String) : Bool :=
  let l := lowerChars name.data
  l == "license".data || l == "licence".data ||
    prefixCS "license.".data l || prefixCS "licence.".data l

/-- Continuation of the README heading regex after the two hash marks:
`\s*(Licence|Legal)` under the `i` flag.  Since neither alternative starts
with whitespace, backtracking over `\s*` is equivalent to skipping the
maximal whitespace run. -/
def afterHashes : List Char → Bool
  | [] => false
  | c :: cs =>
    if jsWhitespace c then afterHashes cs
    else prefixCI "licence".toList (c :: cs) || prefixCI "legal".toList (c :: cs)

/-- Whether the README section regex `/##\s*(Licence|Legal)(\s|\S)*/i`
matches at this position of the text. -/
def headingMatch : List Char → Bool
  | '#' :: '#' :: rest => afterHashes rest
  | _ => false

/-- Leftmost position at which the heading regex matches: the regex match
result `readmeContent.match(...)` is the text from the first matching
position to the end of the file (`(\s|\S)*` is greedy and matches
everything). -/
def findHeadingSuffix : List Char → Option (List Char)
  | [] => none
  | c :: cs => if headingMatch (c :: cs) then some (c :: cs) else findHeadingSuffix cs

/-- Embedding of the README part of `extractLicenseInfo`: the matched section
of the README, from the first `##`‑heading matching `Licence`/`Legal`
(case-insensitively) to the end of the file, or `none` when the regex does
not match. -/
def extractLicenseSection (readmeContent : String) : Option String :=
  (findHeadingSuffix readmeContent.toList).map (fun cs => String.mk cs)

/-- The fixed allow-list `compatibleLicenses` of `checkLicenseCompatibility`. -/
def compatibleLicenses : List String :=
  ["LGPL-2.1", "LGPL-2.1-only", "LGPL-2.1-or-later",
   "GPL-2.0", "GPL-2.0-only", "GPL-2.0-or-later",
   "MIT", "BSD-2-Clause", "BSD-3-Clause", "Apache-2.0", "MPL-1.1"]

/-- The line terminators of the JavaScript regex grammar, which an unescaped
`.` does not match when the `s` flag is absent: LF, CR, LINE SEPARATOR and
PARAGRAPH SEPARATOR. -/
def jsLineTerminator (c : Char) : Bool :=
  c == '\n' || c == '\r' || c == '\u2028' || c == '\u2029'

/-- Whether one allow-list entry, read as a regular expression under the `i`
flag (and without the `s` flag), matches at this position of the text:
letters and digits match case-insensitively, `-` matches itself, and an
unescaped `.` matches any single character other than a line terminator. -/
def patMatchAt : List Char → List Char → Bool
  | [], _ => true
  | _ :: _, [] => false
  | p :: ps, c :: cs =>
    ((p == '.' && !jsLineTerminator c) || charsEqCI p c) && patMatchAt ps cs

/-- Whether one allow-list entry, read as a regular expression, matches
anywhere in the text (`RegExp.prototype.test`). -/
def patSearch (pat : List Char) : List Char → Bool
  | [] => patMatchAt pat []
  | c :: cs => patMatchAt pat (c :: cs) || patSearch pat cs

/-- Embedding of `License.checkLicenseCompatibility`: `1` when the regular
expression `new RegExp(compatibleLicenses.join('|'), 'i')` matches the
license text, `0` otherwise. -/
def checkLicenseCompatibility (licenseText : String) : ℚ :=
  if compatibleLicenses.any (fun pat => patSearch pat.toList licenseText.toList)
  then 1 else 0

/-- Embedding of `License.extractLicenseInfo` over the top-level directory
listing (entry name, file content): take the license section of the first
README-matching entry, then append (after a newline) the content of the
first LICENSE-matching entry; `if (licenseInfo)` is JavaScript string
truthiness, so an empty extracted section counts as absent. -/
def extractLicenseInfo (dir : List (String × String)) : Option String :=
  let readmeFiles := dir.filter (fun f => matchesReadmeName f.1)
  let licenseInfo :=
    match readmeFiles with
    | [] => none
    | (_, readmeContent) :: _ => extractLicenseSection readmeContent
  let licenseFiles := dir.filter (fun f => matchesLicenseFileName f.1)
  match licenseFiles with
  | [] => licenseInfo
  | (_, licenseContent) :: _ =>
    match licenseInfo with
    | some info => if info = "" then some licenseContent
                   else some (info ++ "\n" ++ licenseContent)
    | none => some licenseContent

/-- Resulting value of the `license` field of `License.evaluate`: `-1` on a
clone or filesystem error (the `catch` branch), otherwise the compatibility
of the extracted license text, with `0` when no (non-empty) license text was
found (`if (licenseInfo)` is string truthiness). -/
def score : CheckoutEnv (List (String × String)) → ℚ
  | .cloneFail _ => -1
  | .stepFail => -1
  | .ok dir =>
    match extractLicenseInfo dir with
    | some licenseInfo =>
      if licenseInfo = "" then 0 else checkLicenseCompatibility licenseInfo
    | none => 0

/-- Embedding of `License.evaluate` together with the scratch-directory
state: the `try` body runs according to the environment, the `finally` block
removes the scratch directory, and the stored score plus the final
scratch-directory state are returned. -/
def evaluateFS (env : CheckoutEnv (List (String × String))) : ℚ × Bool :=
  (score env, rmSyncForce (dirAfterClone env))

end License

namespace RampUp

/-- A node of the checked-out file tree: a plain file or a directory with its
children, each carrying its entry name. -/
inductive FTree where
  | file (name : String)
  | dir (name : String) (children : List FTree)

/-- One checklist item of the `metrics` object: its matched name fragment,
its found flag and its required location kind (`file`, `dir` or `either`). -/
structure ChecklistItem where
  name : String
  found : Bool
  fileType : String
deriving DecidableEq

/-- The five fixed checklist items with their initial `found: false` flags. -/
def initialMetrics : List ChecklistItem :=
  [⟨"example", false, "either"⟩, ⟨"test", false, "either"⟩,
   ⟨"readme", false, "file"⟩, ⟨"doc", false, "either"⟩,
   ⟨"makefile", false, "file"⟩]

/-- Embedding of the inner `for (const [key, metric] of ...)` loop of
`processRepository`: one directory entry is checked against every checklist
item; an item whose location kind fits and whose name fragment occurs in the
lower-cased entry name has its found flag set. -/
def checkEntry (entryName : String) (isDir : Bool) (ms : List ChecklistItem) :
    List ChecklistItem :=
  ms.map (fun m =>
    let fileTypeMatches := (isDir && m.fileType == "dir") ||
      (!isDir && m.fileType == "file") || m.fileType == "either"
    let nameMatches := containsCS m.name.data (lowerChars entryName.data)
    if fileTypeMatches && nameMatches then { m with found := true } else m)

mutual

/-- Embedding of `processRepository` on one entry: a directory is first
recursed into, then the entry itself is checked against the checklist. -/
def procTree (t : FTree) (ms : List ChecklistItem) : List ChecklistItem :=
  match t with
  | .file name => checkEntry name false ms
  | .dir name children => checkEntry name true (procList children ms)

/-- Embedding of `processRepository` on a directory listing, processing the
entries in order. -/
def procList (ts : List FTree) (ms : List ChecklistItem) : List ChecklistItem :=
  match ts with
  | [] => ms
  | t :: rest => procList rest (procTree t ms)

end

/-- Embedding of `calculateRampUpScore`: found items over total items. -/
def calculateRampUpScore (ms : List ChecklistItem) : ℚ :=
  let totalFound := ms.foldl (fun acc m => acc + (if m.found then 1 else 0)) 0
  (totalFound : ℚ) / (ms.length : ℚ)

/-- Resulting value of the `rampUp` field of `RampUp.evaluate`: `-1` on a
clone or traversal error (the `catch` branch), otherwise the checklist score
of the cloned tree. -/
def score : CheckoutEnv (List FTree) → ℚ
  | .cloneFail _ => -1
  | .stepFail => -1
  | .ok tree => calculateRampUpScore (procList tree initialMetrics)

/-- Embedding of `RampUp.evaluate` together with the scratch-directory
state: the `try` body runs according to the environment, the `finally` block
removes the scratch directory, and the stored score plus the final
scratch-directory state are returned. -/
def evaluateFS (env : CheckoutEnv (List FTree)) : ℚ × Bool :=
  (score env, rmSyncForce (dirAfterClone env))

end RampUp

/-- Rendering of a rational value the way `Number.prototype.toFixed(3)`
renders the corresponding JavaScript number: rounded to three decimal places
(ties toward positive infinity), with the fraction zero-padded to width
three.  (JavaScript's negative zero, which would render as `-0.000`, does not
arise for the values involved.) -/
def toFixed3 (q : ℚ) : String :=
  let n : ℤ := ⌊q * 1000 + 1 / 2⌋
  let a : ℕ := n.natAbs
  let intPart : ℕ := a / 1000
  let fracPart : ℕ := a % 1000
  let fracStr : String :=
    if fracPart < 10 then "00" ++ toString fracPart
    else if fracPart < 100 then "0" ++ toString fracPart
    else toString fracPart
  (if n < 0 then "-" else "") ++ toString intPart ++ "." ++ fracStr

namespace NetScore

/-- The five scorer fields read by `NetScore.evaluate` after the
`Promise.all` join: `this.busFactor.busFactor`, `this.correctness.correctness`,
`this.license.license`, `this.rampUp.rampUp`,
`this.maintainability.maintainability`. -/
structure MetricValues where
  busFactor : ℚ
  correctness : ℚ
  license : ℚ
  rampUp : ℚ
  maintainability : ℚ
deriving DecidableEq

/-- The mutable own state of a `NetScore` object: its `netScore` field and
its inherited `responseTime` field, both initialized to `0` on
construction. -/
structure State where
  netScore : ℚ := 0
  responseTime : ℚ := 0
deriving DecidableEq

/-- Per-scorer latencies (each scorer's `responseTime` field) read by
`toString`; used only for reporting. -/
structure MetricLatencies where
  busFactor : ℚ
  correctness : ℚ
  license : ℚ
  rampUp : ℚ
  maintainability : ℚ
deriving DecidableEq

/-- The guard of the sentinel branch of `NetScore.evaluate`:
`busFactor == -1 || correctness == -1 || license == -1 || rampUp == -1 ||
maintainability == -1 || license == 0`. -/
def sentinelHit (m : MetricValues) : Bool :=
  m.busFactor == -1 || m.correctness == -1 || m.license == -1 ||
    m.rampUp == -1 || m.maintainability == -1 || m.license == 0

/-- The fixed weight array `[19.84, 7.47, 30.69, 42.0]`. -/
def weights : List ℚ := [19.84, 7.47, 30.69, 42.0]

/-- The metric array `[busFactor, correctness, rampUp, maintainability]`
indexed in step with `weights` by the accumulation loop (the license score is
not part of the weighted sum). -/
def weightedMetrics (m : MetricValues) : List ℚ :=
  [m.busFactor, m.correctness, m.rampUp, m.maintainability]

/-- The accumulation loop
`for (i...) netScore += weights[i] * metrics[i] / 100`. -/
def weightedSum (m : MetricValues) : ℚ :=
  ((weights.zip (weightedMetrics m)).foldl
    (fun acc wv => acc + wv.1 * wv.2 / 100) 0)

/-- Embedding of the scoring part of `NetScore.evaluate`, applied to the
five scorer fields after the join: in the sentinel branch the `netScore`
field is set to `0` and the method returns `0` at once (before the
`responseTime` assignment); otherwise the weighted sum is stored, the
`responseTime` field is set to the elapsed time of the join, and the score is
returned.  The result is the new object state paired with the returned
value. -/
def evaluate (s : State) (m : MetricValues) (elapsed : ℚ) : State × ℚ :=
  if sentinelHit m = true then ({ s with netScore := 0 }, 0)
  else
    let netScore := weightedSum m
    ({ netScore := netScore, responseTime := elapsed }, netScore)

/-- Embedding of `NetScore.toString` at the level of its key/value pairs, in
their serialization order: each numeric field is rendered with
`toFixed(3)`.  (The final `replace` chain only normalizes the whitespace of
the template literal and does not touch the rendered numbers.) -/
def toStringFields (url : String) (s : State) (m : MetricValues)
    (lat : MetricLatencies) : List (String × String) :=
  [("URL", url),
   ("NetScore", toFixed3 s.netScore),
   ("NetScore_Latency", toFixed3 s.responseTime),
   ("RampUp", toFixed3 m.rampUp),
   ("RampUp_Latency", toFixed3 lat.rampUp),
   ("Correctness", toFixed3 m.correctness),
   ("Correctness_Latency", toFixed3 lat.correctness),
   ("BusFactor", toFixed3 m.busFactor),
   ("BusFactor_Latency", toFixed3 lat.busFactor),
   ("ResponsiveMaintainer", toFixed3 m.maintainability),
   ("ResponsiveMaintainer_Latency", toFixed3 lat.maintainability),
   ("License", toFixed3 m.license),
   ("License_Latency", toFixed3 lat.license)]

/-- External data consumed by one whole aggregation run: the inputs of the
three API-backed scorers (with `none` marking a failed fetch) and the
checkout outcomes of the two clone-based scorers. -/
structure PipelineEnv where
  commitData : List (String × ℕ)
  bugIssueStates : Option (List String)
  recentIssues : Option (List Maintainability.IssueRec)
  licenseCheckout : CheckoutEnv (List (String × String))
  rampUpCheckout : CheckoutEnv (List RampUp.FTree)

/-- Observable outcome of one whole aggregation run: the value returned by
`NetScore.evaluate`, the final `NetScore` object state, the number of
repository-data fetches performed by the API-backed scorers, and the number
of clone attempts performed by the checkout-based scorers. -/
structure AggregateOutcome where
  returned : ℚ
  finalState : State
  apiFetches : ℕ
  cloneAttempts : ℕ
deriving DecidableEq

/-- Embedding of one whole aggregation run: `NetScore.evaluate` launches all
five scorers and joins them (their runs are independent, so the join is
modelled by evaluating each against its part of the environment), then scores
the five resulting fields.  `none` marks the run in which the bus-factor
field became `NaN` (an empty histogram with nonzero quota), which leaves the
rational model.  The two checkout-based scorers attempt their clones
unconditionally, hence the constant two clone attempts. -/
def aggregatorEvaluate (remaining : ℕ) (env : PipelineEnv) (s : State)
    (elapsed : ℚ) : Option AggregateOutcome :=
  let bf := BusFactor.run remaining env.commitData
  match bf.1 with
  | none => none
  | some busFactor =>
    let corr := Correctness.run remaining env.bugIssueStates
    let maint := Maintainability.run remaining env.recentIssues
    let licenseVal := License.score env.licenseCheckout
    let rampUpVal := RampUp.score env.rampUpCheckout
    let m : MetricValues :=
      ⟨busFactor, corr.1, licenseVal, rampUpVal, maint.1⟩
    let res := evaluate s m elapsed
    some ⟨res.2, res.1,
      (if bf.2 then 1 else 0) + (if corr.2 then 1 else 0) +
        (if maint.2 then 1 else 0),
      2⟩

end NetScore

namespace BusFactor

/-- Specification wording of the accumulation step of the bus-factor
algorithm: `k` contributors of the descending-sorted count list are consumed
exactly when the running sum first reaches the target (85% of all commits):
the first `k` counts reach it and no shorter prefix does. -/
def isMinPrefixReaching (counts : List ℕ) (target : ℚ) (k : ℕ) : Prop :=
  target ≤ (((counts.take k).map (fun n : ℕ => (n : ℚ))).sum) ∧
    ∀ j < k, (((counts.take j).map (fun n : ℕ => (n : ℚ))).sum) < target

end BusFactor

namespace License

/-- Modelled from the claim's words (claim C8), for comparison with the
code: the README heading regex continuation with the American spelling
`License` in place of the code's `Licence`. -/
def claimedAfterHashes : List Char → Bool
  | [] => false
  | c :: cs =>
    if jsWhitespace c then claimedAfterHashes cs
    else prefixCI "license".data (c :: cs) || prefixCI "legal".data (c :: cs)

/-- Modelled from the claim's words (claim C8): whether a heading matching
`License` or `Legal` starts at this position. -/
def claimedHeadingMatch : List Char → Bool
  | '#' :: '#' :: rest => claimedAfterHashes rest
  | _ => false

/-- Modelled from the claim's words (claim C8): the README section from the
first heading matching `License` or `Legal` onwards. -/
def claimedFindHeadingSuffix : List Char → Option (List Char)
  | [] => none
  | c :: cs =>
    if claimedHeadingMatch (c :: cs) then some (c :: cs)
    else claimedFindHeadingSuffix cs

/-- Modelled from the claim's words (claim C8): extract the `License`/`Legal`
README section, concatenate it with the LICENSE file text. -/
def claimedExtractInfo (dir : List (String × String)) : Option String :=
  let readmeFiles := dir.filter (fun f => matchesReadmeName f.1)
  let licenseInfo :=
    match readmeFiles with
    | [] => none
    | (_, readmeContent) :: _ =>
      (claimedFindHeadingSuffix readmeContent.toList).map (fun cs => String.mk cs)
  let licenseFiles := dir.filter (fun f => matchesLicenseFileName f.1)
  match licenseFiles with
  | [] => licenseInfo
  | (_, licenseContent) :: _ =>
    match licenseInfo with
    | some info => if info = "" then some licenseContent
                   else some (info ++ "\n" ++ licenseContent)
    | none => some licenseContent

/-- Modelled from the claim's words (claim C8): `1` when the combined text
contains an allow-listed identifier under case-insensitive (plain substring)
matching, else `0`; `0` when no license text was found. -/
def claimedScore (dir : List (String × String)) : ℚ :=
  match claimedExtractInfo dir with
  | none => 0
  | some info =>
    if compatibleLicenses.any (fun pat => containsCIAux pat.data info.data)
    then 1 else 0

end License

namespace NetScore

/-- A concrete aggregation environment used to exercise the quota-exhausted
run: the license checkout succeeds and finds a compatible LICENSE file, the
ramp-up clone fails, the three API-backed scorers would have data to fetch. -/
def c4Env : PipelineEnv where
  commitData := [("alice", 85), ("bob", 15)]
  bugIssueStates := some []
  recentIssues := some []
  licenseCheckout := .ok [("LICENSE", "MIT License")]
  rampUpCheckout := .cloneFail false

end NetScore

/-! Helper lemmas shared by the claim theorems. -/

/-- The sentinel guard of `NetScore.evaluate` holds exactly when one of the
five scorer fields equals `-1` or the license field equals `0`. -/
theorem sentinelHit_iff (m : NetScore.MetricValues) :
    NetScore.sentinelHit m = true ↔
      (m.busFactor = -1 ∨ m.correctness = -1 ∨ m.license = -1 ∨
        m.rampUp = -1 ∨ m.maintainability = -1 ∨ m.license = 0) := by
  simp [NetScore.sentinelHit, or_assoc]

/-- Closed form of the weighted accumulation loop of `NetScore.evaluate`. -/
theorem weightedSum_eq (m : NetScore.MetricValues) :
    NetScore.weightedSum m =
      (19.84 * m.busFactor + 7.47 * m.correctness + 30.69 * m.rampUp +
        42.0 * m.maintainability) / 100 := by
  simp [NetScore.weightedSum, NetScore.weights, NetScore.weightedMetrics]
  ring

/-- The weighted sum lies in `[0, 1]` whenever the four weighted metrics lie
in `[0, 1]` (the weights add up to exactly `100`). -/
theorem weightedSum_bounds (m : NetScore.MetricValues)
    (hb0 : 0 ≤ m.busFactor) (hb1 : m.busFactor ≤ 1)
    (hc0 : 0 ≤ m.correctness) (hc1 : m.correctness ≤ 1)
    (hr0 : 0 ≤ m.rampUp) (hr1 : m.rampUp ≤ 1)
    (hm0 : 0 ≤ m.maintainability) (hm1 : m.maintainability ≤ 1) :
    0 ≤ NetScore.weightedSum m ∧ NetScore.weightedSum m ≤ 1 := by
  rw [weightedSum_eq]
  constructor
  · positivity
  · rw [div_le_one (by norm_num)]
    nlinarith

/-- Fixed-point rendering of the sentinel value. -/
theorem toFixed3_neg_one : toFixed3 (-1) = "-1.000" := by
  norm_num [toFixed3]
  decide

/-- Fixed-point rendering of zero. -/
theorem toFixed3_zero : toFixed3 0 = "0.000" := by
  norm_num [toFixed3]
  decide

/-- Claim C1: whenever one of the five scorer results equals `-1`, or the
license score equals `0`, `NetScore.evaluate` forces the aggregate net score
to `0` (not `-1`), and the serialized record still renders the failing
scorer's own field with the literal `-1.000` (and the `NetScore` field with
`0.000`). -/
theorem netScore_sentinel_forces_zero
    (s : NetScore.State) (m : NetScore.MetricValues) (elapsed : ℚ)
    (url : String) (lat : NetScore.MetricLatencies)
    (h : m.busFactor = -1 ∨ m.correctness = -1 ∨ m.license = -1 ∨
      m.rampUp = -1 ∨ m.maintainability = -1 ∨ m.license = 0) :
    (NetScore.evaluate s m elapsed).2 = 0 ∧
    (NetScore.evaluate s m elapsed).1.netScore = 0 ∧
    (m.busFactor = -1 →
      (NetScore.toStringFields url (NetScore.evaluate s m elapsed).1 m lat).lookup
        "BusFactor" = some "-1.000") ∧
    (m.correctness = -1 →
      (NetScore.toStringFields url (NetScore.evaluate s m elapsed).1 m lat).lookup
        "Correctness" = some "-1.000") ∧
    (m.rampUp = -1 →
      (NetScore.toStringFields url (NetScore.evaluate s m elapsed).1 m lat).lookup
        "RampUp" = some "-1.000") ∧
    (m.maintainability = -1 →
      (NetScore.toStringFields url (NetScore.evaluate s m elapsed).1 m lat).lookup
        "ResponsiveMaintainer" = some "-1.000") ∧
    (m.license = -1 →
      (NetScore.toStringFields url (NetScore.evaluate s m elapsed).1 m lat).lookup
        "License" = some "-1.000") ∧
    (NetScore.toStringFields url (NetScore.evaluate s m elapsed).1 m lat).lookup
      "NetScore" = some "0.000" := by
  have hs : NetScore.sentinelHit m = true := (sentinelHit_iff m).2 h
  have he : NetScore.evaluate s m elapsed = ({ s with netScore := 0 }, 0) := by
    rw [NetScore.evaluate, if_pos hs]
  refine ⟨by rw [he], by rw [he], ?_, ?_, ?_, ?_, ?_, ?_⟩
  · intro hx
    simp [he, NetScore.toStringFields, List.lookup, hx, toFixed3_neg_one]
  · intro hx
    simp [he, NetScore.toStringFields, List.lookup, hx, toFixed3_neg_one]
  · intro hx
    simp [he, NetScore.toStringFields, List.lookup, hx, toFixed3_neg_one]
  · intro hx
    simp [he, NetScore.toStringFields, List.lookup, hx, toFixed3_neg_one]
  · intro hx
    simp [he, NetScore.toStringFields, List.lookup, hx, toFixed3_neg_one]
  · simp [he, NetScore.toStringFields, List.lookup, toFixed3_zero]

/-- Witness for claim C1 at a concrete sentinel input: the bus factor is
`-1`, the aggregate is `0` and the record renders `BusFactor` as `-1.000`. -/
theorem netScore_sentinel_forces_zero_witness :
    (NetScore.evaluate {} ⟨-1, 1/2, 1, 1/2, 1/2⟩ 5).2 = 0 ∧
    (NetScore.toStringFields "u" (NetScore.evaluate {} ⟨-1, 1/2, 1, 1/2, 1/2⟩ 5).1
      ⟨-1, 1/2, 1, 1/2, 1/2⟩ ⟨0, 0, 0, 0, 0⟩).lookup "BusFactor" = some "-1.000" :=
  let t := netScore_sentinel_forces_zero {} ⟨-1, 1/2, 1, 1/2, 1/2⟩ 5 "u"
    ⟨0, 0, 0, 0, 0⟩ (Or.inl rfl)
  ⟨t.1, t.2.2.1 rfl⟩

/-- Counterexample to claim C2 as stated: with a bus factor of `-1` and all
other scorer fields valid, the aggregate's `netScore` field becomes `0`, not
the sentinel `-1` that the claim requires. -/
theorem netScore_sentinel_is_zero_not_neg_one :
    (NetScore.evaluate {} ⟨-1, 1, 1, 1, 1⟩ 5).1.netScore = 0 ∧
    (NetScore.evaluate {} ⟨-1, 1, 1, 1, 1⟩ 5).1.netScore ≠ -1 := by
  have h : NetScore.evaluate {} ⟨-1, 1, 1, 1, 1⟩ 5 =
      ({ netScore := 0, responseTime := 0 }, 0) := by
    rw [NetScore.evaluate, if_pos (by norm_num [NetScore.sentinelHit])]
  rw [h]
  exact ⟨rfl, by norm_num⟩

/-- Claim C2 (amended): assuming every contributing scorer field is either
`-1` or in `[0, 1]`, the aggregate's `netScore` field is `0` — not `-1` —
whenever some contributing field is `-1` or the license field is `0`, and
otherwise it lies in `[0, 1]`. -/
theorem netScore_invariant
    (s : NetScore.State) (m : NetScore.MetricValues) (elapsed : ℚ)
    (hb : m.busFactor = -1 ∨ (0 ≤ m.busFactor ∧ m.busFactor ≤ 1))
    (hc : m.correctness = -1 ∨ (0 ≤ m.correctness ∧ m.correctness ≤ 1))
    (_hl : m.license = -1 ∨ (0 ≤ m.license ∧ m.license ≤ 1))
    (hr : m.rampUp = -1 ∨ (0 ≤ m.rampUp ∧ m.rampUp ≤ 1))
    (hm : m.maintainability = -1 ∨ (0 ≤ m.maintainability ∧ m.maintainability ≤ 1)) :
    ((m.busFactor = -1 ∨ m.correctness = -1 ∨ m.license = -1 ∨
        m.rampUp = -1 ∨ m.maintainability = -1 ∨ m.license = 0) →
      (NetScore.evaluate s m elapsed).1.netScore = 0) ∧
    (¬(m.busFactor = -1 ∨ m.correctness = -1 ∨ m.license = -1 ∨
        m.rampUp = -1 ∨ m.maintainability = -1 ∨ m.license = 0) →
      0 ≤ (NetScore.evaluate s m elapsed).1.netScore ∧
        (NetScore.evaluate s m elapsed).1.netScore ≤ 1) := by
  constructor
  · intro h
    have hs : NetScore.sentinelHit m = true := (sentinelHit_iff m).2 h
    rw [NetScore.evaluate, if_pos hs]
  · intro h
    have hs : ¬ NetScore.sentinelHit m = true := fun hx => h ((sentinelHit_iff m).1 hx)
    rw [NetScore.evaluate, if_neg hs]
    push_neg at h
    obtain ⟨h1, h2, _, h4, h5, _⟩ := h
    exact weightedSum_bounds m
      (hb.resolve_left h1).1 (hb.resolve_left h1).2
      (hc.resolve_left h2).1 (hc.resolve_left h2).2
      (hr.resolve_left h4).1 (hr.resolve_left h4).2
      (hm.resolve_left h5).1 (hm.resolve_left h5).2

/-- Witness for claim C2 (amended) at concrete inputs: a sentinel case and a
fully valid case. -/
theorem netScore_invariant_witness :
    (NetScore.evaluate {} ⟨-1, 1, 1, 1, 1⟩ 5).1.netScore = 0 ∧
    (0 ≤ (NetScore.evaluate {} ⟨1, 1, 1, 1, 1⟩ 5).1.netScore ∧
      (NetScore.evaluate {} ⟨1, 1, 1, 1, 1⟩ 5).1.netScore ≤ 1) :=
  ⟨(netScore_invariant {} ⟨-1, 1, 1, 1, 1⟩ 5
      (Or.inl rfl) (Or.inr (by norm_num)) (Or.inr (by norm_num))
      (Or.inr (by norm_num)) (Or.inr (by norm_num))).1 (Or.inl rfl),
   (netScore_invariant {} ⟨1, 1, 1, 1, 1⟩ 5
      (Or.inr (by norm_num)) (Or.inr (by norm_num)) (Or.inr (by norm_num))
      (Or.inr (by norm_num)) (Or.inr (by norm_num))).2 (by norm_num)⟩

/-- Claim C3: outside the sentinel branch, the returned net score equals the
fixed weighted sum over bus factor, correctness, ramp-up and maintainability
divided by `100` — the license score is not part of the sum — and the result
lies in `[0, 1]` whenever the four weighted metrics do. -/
theorem netScore_weighted_formula
    (s : NetScore.State) (m : NetScore.MetricValues) (elapsed : ℚ)
    (h : ¬(m.busFactor = -1 ∨ m.correctness = -1 ∨ m.license = -1 ∨
      m.rampUp = -1 ∨ m.maintainability = -1 ∨ m.license = 0)) :
    (NetScore.evaluate s m elapsed).2 =
      (19.84 * m.busFactor + 7.47 * m.correctness + 30.69 * m.rampUp +
        42.0 * m.maintainability) / 100 ∧
    (0 ≤ m.busFactor → m.busFactor ≤ 1 → 0 ≤ m.correctness → m.correctness ≤ 1 →
      0 ≤ m.rampUp → m.rampUp ≤ 1 → 0 ≤ m.maintainability → m.maintainability ≤ 1 →
      0 ≤ (NetScore.evaluate s m elapsed).2 ∧ (NetScore.evaluate s m elapsed).2 ≤ 1) := by
  have hs : ¬ NetScore.sentinelHit m = true := fun hx => h ((sentinelHit_iff m).1 hx)
  have he : (NetScore.evaluate s m elapsed).2 = NetScore.weightedSum m := by
    rw [NetScore.evaluate, if_neg hs]
  constructor
  · rw [he, weightedSum_eq]
  · intro hb0 hb1 hc0 hc1 hr0 hr1 hm0 hm1
    rw [he]
    exact weightedSum_bounds m hb0 hb1 hc0 hc1 hr0 hr1 hm0 hm1

/-- Witness for claim C3 at a concrete non-sentinel input. -/
theorem netScore_weighted_formula_witness :
    (NetScore.evaluate {} ⟨1/2, 1/2, 1, 1/2, 1/2⟩ 5).2 =
      (19.84 * (1/2) + 7.47 * (1/2) + 30.69 * (1/2) + 42.0 * (1/2)) / 100 ∧
    (0 ≤ (NetScore.evaluate {} ⟨1/2, 1/2, 1, 1/2, 1/2⟩ 5).2 ∧
      (NetScore.evaluate {} ⟨1/2, 1/2, 1, 1/2, 1/2⟩ 5).2 ≤ 1) :=
  let t := netScore_weighted_formula {} ⟨1/2, 1/2, 1, 1/2, 1/2⟩ 5 (by norm_num)
  ⟨by simpa using t.1, t.2 (by norm_num) (by norm_num) (by norm_num) (by norm_num)
    (by norm_num) (by norm_num) (by norm_num) (by norm_num)⟩

/-- Claim C10: in the sentinel branch `NetScore.evaluate` returns before the
`responseTime` assignment, so the object's `responseTime` keeps its prior
value, and for a freshly constructed aggregator (whose `responseTime` is `0`)
the serialized `NetScore_Latency` field renders as `0.000`, not as the
elapsed time of the join. -/
theorem netScore_sentinel_skips_latency
    (s : NetScore.State) (m : NetScore.MetricValues) (elapsed : ℚ)
    (url : String) (lat : NetScore.MetricLatencies)
    (h : m.busFactor = -1 ∨ m.correctness = -1 ∨ m.license = -1 ∨
      m.rampUp = -1 ∨ m.maintainability = -1 ∨ m.license = 0) :
    (NetScore.evaluate s m elapsed).1.responseTime = s.responseTime ∧
    (s.responseTime = 0 →
      (NetScore.toStringFields url (NetScore.evaluate s m elapsed).1 m lat).lookup
        "NetScore_Latency" = some "0.000") := by
  have hs : NetScore.sentinelHit m = true := (sentinelHit_iff m).2 h
  have he : NetScore.evaluate s m elapsed = ({ s with netScore := 0 }, 0) := by
    rw [NetScore.evaluate, if_pos hs]
  refine ⟨by rw [he], ?_⟩
  intro hz
  simp [he, NetScore.toStringFields, List.lookup, hz, toFixed3_zero]

/-- Witness for claim C10 at a concrete sentinel input with a fresh state. -/
theorem netScore_sentinel_skips_latency_witness :
    (NetScore.evaluate {} ⟨1, 1, 0, 1, 1⟩ 5).1.responseTime = 0 ∧
    (NetScore.toStringFields "u" (NetScore.evaluate {} ⟨1, 1, 0, 1, 1⟩ 5).1
      ⟨1, 1, 0, 1, 1⟩ ⟨0, 0, 0, 0, 0⟩).lookup "NetScore_Latency" = some "0.000" :=
  let t := netScore_sentinel_skips_latency {} ⟨1, 1, 0, 1, 1⟩ 5 "u" ⟨0, 0, 0, 0, 0⟩
    (Or.inr (Or.inr (Or.inr (Or.inr (Or.inr rfl)))))
  ⟨t.1, t.2 rfl⟩

/-- Claim C9: on every exit path of `RampUp.evaluate` and `License.evaluate`
— success, clone failure (whether or not it left a partial directory), or a
later filesystem failure — the `finally` block removes the scratch
directory, so it does not exist after the call returns. -/
theorem scratch_dir_removed_every_path
    (envR : CheckoutEnv (List RampUp.FTree))
    (envL : CheckoutEnv (List (String × String))) :
    (RampUp.evaluateFS envR).2 = false ∧ (License.evaluateFS envL).2 = false :=
  ⟨rfl, rfl⟩

/-- Claim C5 is refuted by the code: on the empty commit histogram the guard
the specification requires is absent, `calculateBusFactor` runs its division
with a zero divisor (`rawBusFactor = 0 / 0`, which is `NaN` in JavaScript,
and `Math.min(NaN, 1) = NaN`), and the result is the non-finite marker, not
the sentinel `-1`. -/
theorem busFactor_empty_histogram_divides_by_zero :
    BusFactor.calculateBusFactor [] = none ∧
    BusFactor.calculateBusFactor [] ≠ some (-1) := by
  have h : BusFactor.calculateBusFactor [] = none := by
    norm_num [BusFactor.calculateBusFactor, BusFactor.totalCommits,
      BusFactor.sortByCountDesc, BusFactor.consumeCount, jsDiv]
  exact ⟨h, by rw [h]; simp⟩

/-- Counterexample to claim C4 as stated: with the remaining quota at zero,
the aggregation does not abort returning `-1` — the run completes, returns
`0`, and the two checkout-based scorers still attempt their clones. -/
theorem quota_zero_counterexample :
    ∃ out, NetScore.aggregatorEvaluate 0 NetScore.c4Env {} 3 = some out ∧
      out.returned = 0 ∧ out.returned ≠ -1 ∧ out.cloneAttempts = 2 := by
  have hlic : License.score (.ok [("LICENSE", "MIT License")]) = 1 := by decide
  refine ⟨⟨0, {}, 0, 2⟩, ?_, rfl, by norm_num, rfl⟩
  simp [NetScore.aggregatorEvaluate, NetScore.c4Env, BusFactor.run,
    Correctness.run, Maintainability.run, RampUp.score, hlic,
    NetScore.evaluate, NetScore.sentinelHit]

/-- Claim C4 (amended): when the remaining API quota is zero there is no
aggregator-level pre-flight abort; instead the three API-backed scorers each
return `-1` without fetching repository data, the two checkout-based scorers
still attempt their clones, and the aggregate evaluation completes with net
score `0` (not `-1`), in every environment. -/
theorem quota_zero_amended (env : NetScore.PipelineEnv) (s : NetScore.State)
    (elapsed : ℚ) :
    NetScore.aggregatorEvaluate 0 env s elapsed =
      some ⟨0, { s with netScore := 0 }, 0, 2⟩ := by
  simp [NetScore.aggregatorEvaluate, BusFactor.run, Correctness.run,
    Maintainability.run, NetScore.evaluate, NetScore.sentinelHit]

/-- One loop step of the maintainability accumulation keeps the running
resolution-time total nonnegative, given a valid issue. -/
theorem maintStep_nonneg (acc : ℚ × ℕ) (i : Maintainability.IssueRec)
    (hv : Maintainability.issueValid i = true) (ha : 0 ≤ acc.1) :
    0 ≤ (Maintainability.maintStep acc i).1 := by
  by_cases hs : i.state == "closed"
  · rcases hc : i.closedAt with _ | c
    · simp [Maintainability.maintStep, hs, hc, ha]
    · have hle : i.createdAt ≤ c := by
        unfold Maintainability.issueValid at hv
        rw [hc] at hv
        exact of_decide_eq_true hv
      simp only [Maintainability.maintStep, hs, hc, if_pos]
      have : (0 : ℚ) ≤ (c - i.createdAt) / (1000 * 60 * 60 * 24) := by
        apply div_nonneg (by linarith) (by norm_num)
      exact add_nonneg ha this
  · simp [Maintainability.maintStep, hs, ha]

/-- The accumulated resolution-time total over any valid issue list is
nonnegative, from any nonnegative starting accumulator. -/
theorem foldl_maintStep_nonneg (l : List Maintainability.IssueRec) :
    ∀ acc : ℚ × ℕ, (∀ i ∈ l, Maintainability.issueValid i = true) → 0 ≤ acc.1 →
      0 ≤ (l.foldl Maintainability.maintStep acc).1 := by
  induction l with
  | nil => intro acc _ ha; simpa using ha
  | cons i rest ih =>
    intro acc h ha
    simp only [List.foldl_cons]
    exact ih (Maintainability.maintStep acc i)
      (fun j hj => h j (List.mem_cons_of_mem i hj))
      (maintStep_nonneg acc i (h i (List.mem_cons_self i rest)) ha)

/-- The average resolution time over a valid issue list is nonnegative. -/
theorem averageResolutionTimeDays_nonneg (issues : List Maintainability.IssueRec)
    (h : ∀ i ∈ issues, Maintainability.issueValid i = true) :
    0 ≤ Maintainability.averageResolutionTimeDays issues := by
  simp only [Maintainability.averageResolutionTimeDays]
  have hstats : 0 ≤ (Maintainability.resolutionStats issues).1 :=
    foldl_maintStep_nonneg issues (0, 0) h (by norm_num)
  split
  · exact div_nonneg hstats (by positivity)
  · exact le_refl 0

/-- Claim C7: over any sampled issue set whose closure timestamps are not
before the creation timestamps, `calculateMaintainability` returns exactly
`0` when the average resolution time exceeds `14` days, exactly `1` when the
average is `0` days (in particular when no closed issue was sampled, where
the average defaults to `0`), and otherwise `1 - avg / 14`, which lies in
`[0, 1]`. -/
theorem maintainability_boundary_values (issues : List Maintainability.IssueRec)
    (h : ∀ i ∈ issues, Maintainability.issueValid i = true) :
    (Maintainability.averageResolutionTimeDays issues > 14 →
      Maintainability.calculateMaintainability (some issues) = 0) ∧
    ((Maintainability.resolutionStats issues).2 = 0 →
      Maintainability.calculateMaintainability (some issues) = 1) ∧
    (Maintainability.averageResolutionTimeDays issues = 0 →
      Maintainability.calculateMaintainability (some issues) = 1) ∧
    (Maintainability.averageResolutionTimeDays issues ≤ 14 →
      Maintainability.calculateMaintainability (some issues) =
        1 - Maintainability.averageResolutionTimeDays issues / 14 ∧
      0 ≤ Maintainability.calculateMaintainability (some issues) ∧
      Maintainability.calculateMaintainability (some issues) ≤ 1) := by
  have havg0 := averageResolutionTimeDays_nonneg issues h
  have hcalc : Maintainability.calculateMaintainability (some issues) =
      if Maintainability.averageResolutionTimeDays issues > 14 then 0
      else 1 - Maintainability.averageResolutionTimeDays issues / 14 := rfl
  refine ⟨?_, ?_, ?_, ?_⟩
  · intro h14
    rw [hcalc, if_pos h14]
  · intro hn
    have hz : Maintainability.averageResolutionTimeDays issues = 0 := by
      simp only [Maintainability.averageResolutionTimeDays]
      rw [hn]
      norm_num
    rw [hcalc, hz]
    norm_num
  · intro hz
    rw [hcalc, hz]
    norm_num
  · intro hle
    have hnot : ¬ Maintainability.averageResolutionTimeDays issues > 14 :=
      not_lt.2 hle
    rw [hcalc, if_neg hnot]
    refine ⟨rfl, ?_, ?_⟩
    · have : Maintainability.averageResolutionTimeDays issues / 14 ≤ 1 :=
        (div_le_one (by norm_num)).2 hle
      linarith
    · have : 0 ≤ Maintainability.averageResolutionTimeDays issues / 14 :=
        div_nonneg havg0 (by norm_num)
      linarith

/-- Witness for claim C7 at a concrete issue set: one issue closed after
seven days yields the score `1 - 7 / 14 = 1 / 2`. -/
theorem maintainability_boundary_values_witness :
    Maintainability.calculateMaintainability
        (some [⟨"closed", 0, some 604800000⟩]) =
      1 - Maintainability.averageResolutionTimeDays
        [⟨"closed", 0, some 604800000⟩] / 14 :=
  ((maintainability_boundary_values [⟨"closed", 0, some 604800000⟩]
      (by
        intro i hi
        simp only [List.mem_singleton] at hi
        subst hi
        norm_num [Maintainability.issueValid])).2.2.2
    (by
      norm_num [Maintainability.averageResolutionTimeDays,
        Maintainability.resolutionStats, Maintainability.maintStep])).1

/-- Inserting an entry grows the sorted list by one. -/
theorem insertByCountDesc_length (x : String × ℕ) (l : List (String × ℕ)) :
    (BusFactor.insertByCountDesc x l).length = l.length + 1 := by
  induction l with
  | nil => rfl
  | cons y ys ih =>
    by_cases hb : x.2 ≤ y.2 <;> simp [BusFactor.insertByCountDesc, hb, ih]

/-- Sorting the histogram preserves the number of contributors. -/
theorem sortByCountDesc_length (l : List (String × ℕ)) :
    (BusFactor.sortByCountDesc l).length = l.length := by
  induction l with
  | nil => rfl
  | cons x xs ih =>
    simp [BusFactor.sortByCountDesc, insertByCountDesc_length, ih]

/-- Inserting an entry adds its commit count to the count total. -/
theorem insertByCountDesc_countSum (x : String × ℕ) (l : List (String × ℕ)) :
    ((BusFactor.insertByCountDesc x l).map (fun p => p.2)).sum =
      x.2 + ((l.map (fun p => p.2)).sum) := by
  induction l with
  | nil => simp [BusFactor.insertByCountDesc]
  | cons y ys ih =>
    by_cases hb : x.2 ≤ y.2 <;> simp [BusFactor.insertByCountDesc, hb, ih]
    omega

/-- Sorting the histogram preserves the total number of commits. -/
theorem sortByCountDesc_countSum (l : List (String × ℕ)) :
    ((BusFactor.sortByCountDesc l).map (fun p => p.2)).sum =
      BusFactor.totalCommits l := by
  induction l with
  | nil => rfl
  | cons x xs ih =>
    simp [BusFactor.sortByCountDesc, insertByCountDesc_countSum, ih,
      BusFactor.totalCommits]

/-- Characterization of the `while` loop of `calculateBusFactor`: provided
the target is reachable at all, the loop consumes the least prefix of the
count list whose running sum (on top of the starting accumulator) reaches the
target. -/
theorem consumeCount_spec (counts : List ℕ) : ∀ acc target : ℚ,
    target ≤ acc + ((counts.map (fun n : ℕ => (n : ℚ))).sum) →
    (target ≤ acc +
      (((counts.take (BusFactor.consumeCount counts acc target)).map
        (fun n : ℕ => (n : ℚ))).sum)) ∧
    ∀ j < BusFactor.consumeCount counts acc target,
      acc + (((counts.take j).map (fun n : ℕ => (n : ℚ))).sum) < target := by
  induction counts with
  | nil =>
    intro acc target h
    constructor
    · simpa using h
    · intro j hj
      have hz : BusFactor.consumeCount [] acc target = 0 := rfl
      rw [hz] at hj
      omega
  | cons c rest ih =>
    intro acc target h
    by_cases hacc : acc < target
    · have hck : BusFactor.consumeCount (c :: rest) acc target =
          BusFactor.consumeCount rest (acc + (c : ℚ)) target + 1 := by
        simp [BusFactor.consumeCount, hacc]
      have hsum : target ≤ (acc + (c : ℚ)) + ((rest.map (fun n : ℕ => (n : ℚ))).sum) := by
        simp only [List.map_cons, List.sum_cons] at h
        linarith
      have hrec := ih (acc + (c : ℚ)) target hsum
      constructor
      · rw [hck]
        simp only [List.take_succ_cons, List.map_cons, List.sum_cons]
        have := hrec.1
        linarith
      · intro j hj
        rw [hck] at hj
        cases j with
        | zero => simpa using hacc
        | succ j' =>
          have hj' : j' < BusFactor.consumeCount rest (acc + (c : ℚ)) target := by
            omega
          have := hrec.2 j' hj'
          simp only [List.take_succ_cons, List.map_cons, List.sum_cons]
          linarith
    · have hck : BusFactor.consumeCount (c :: rest) acc target = 0 := by
        simp [BusFactor.consumeCount, hacc]
      constructor
      · rw [hck]
        simpa using not_lt.1 hacc
      · intro j hj
        rw [hck] at hj
        omega

/-- Claim C6: on every non-empty histogram, `calculateBusFactor` sorts the
contributors by commit count descending, consumes the least number `k` of
them whose counts reach 85% of the total, and returns
`min (k / totalContributors * 2) 1`; in particular the histogram
`{alice: 85, bob: 15}` scores exactly `1`. -/
theorem busFactor_algorithm (cd : List (String × ℕ)) (h : cd ≠ []) :
    (∃ k, BusFactor.isMinPrefixReaching
        ((BusFactor.sortByCountDesc cd).map (fun p => p.2))
        ((BusFactor.totalCommits cd : ℚ) * (85 / 100)) k ∧
      BusFactor.calculateBusFactor cd =
        some (min ((k : ℚ) / (cd.length : ℚ) * 2) 1)) ∧
    BusFactor.calculateBusFactor [("alice", 85), ("bob", 15)] = some 1 := by
  constructor
  · have hsum : (((BusFactor.sortByCountDesc cd).map (fun p => p.2)).map
        (fun n : ℕ => (n : ℚ))).sum = ((BusFactor.totalCommits cd : ℕ) : ℚ) := by
      rw [← Nat.cast_list_sum, sortByCountDesc_countSum]
    have htarget : (BusFactor.totalCommits cd : ℚ) * (85 / 100) ≤
        0 + (((BusFactor.sortByCountDesc cd).map (fun p => p.2)).map
          (fun n : ℕ => (n : ℚ))).sum := by
      rw [hsum]
      have hT : (0 : ℚ) ≤ (BusFactor.totalCommits cd : ℚ) := Nat.cast_nonneg _
      nlinarith
    obtain ⟨h1, h2⟩ := consumeCount_spec
      ((BusFactor.sortByCountDesc cd).map (fun p => p.2)) 0
      ((BusFactor.totalCommits cd : ℚ) * (85 / 100)) htarget
    refine ⟨BusFactor.consumeCount
        ((BusFactor.sortByCountDesc cd).map (fun p => p.2)) 0
        ((BusFactor.totalCommits cd : ℚ) * (85 / 100)),
      ⟨by simpa using h1, fun j hj => by simpa using h2 j hj⟩, ?_⟩
    have hne : (BusFactor.sortByCountDesc cd).length ≠ 0 := by
      rw [sortByCountDesc_length]
      exact fun hx => h (List.length_eq_zero.mp hx)
    have hcast : ((BusFactor.sortByCountDesc cd).length : ℚ) ≠ 0 :=
      Nat.cast_ne_zero.2 hne
    have hcd : ((cd.length : ℚ)) ≠ 0 := by
      rw [sortByCountDesc_length] at hcast
      exact hcast
    simp only [BusFactor.calculateBusFactor, jsDiv, sortByCountDesc_length,
      if_neg hcd, Option.map_some']
  · norm_num [BusFactor.calculateBusFactor, BusFactor.totalCommits,
      BusFactor.sortByCountDesc, BusFactor.insertByCountDesc,
      BusFactor.consumeCount, jsDiv]

/-- Witness for claim C6 at the concrete histogram of the claim. -/
theorem busFactor_algorithm_witness :
    ([("alice", 85), ("bob", 15)] : List (String × ℕ)) ≠ [] ∧
    BusFactor.calculateBusFactor [("alice", 85), ("bob", 15)] = some 1 :=
  ⟨by simp,
   (busFactor_algorithm [("alice", 85), ("bob", 15)] (by simp)).2⟩

/-- Counterexample to claim C8 as stated: a README whose heading is the
American spelling `## License`, followed by an allow-listed identifier, is
predicted by the claim to score `1`, but the code's regex only matches the
British spelling `Licence` (or `Legal`), extracts nothing, and scores `0`. -/
theorem license_heading_counterexample :
    License.score (.ok [("README.md", "## License\nMIT")]) = 0 ∧
    License.claimedScore [("README.md", "## License\nMIT")] = 1 ∧
    (0 : ℚ) ≠ 1 := by
  refine ⟨by decide, by decide, by norm_num⟩

/-- A case-insensitive character-for-character prefix is in particular a
match of the allow-list pattern read as a regex ('.' also matching itself). -/
theorem patMatchAt_of_prefixCI (p : List Char) :
    ∀ h : List Char, prefixCI p h = true → License.patMatchAt p h = true := by
  induction p with
  | nil => intro h _; rfl
  | cons a ps ih =>
    intro h hp
    cases h with
    | nil => simp [prefixCI] at hp
    | cons c cs =>
      simp only [prefixCI, Bool.and_eq_true] at hp
      simp only [License.patMatchAt, Bool.and_eq_true, Bool.or_eq_true]
      exact ⟨Or.inr hp.1, ih cs hp.2⟩

/-- A case-insensitive substring occurrence of an allow-list entry makes the
regex search succeed. -/
theorem patSearch_of_containsCIAux (p : List Char) :
    ∀ h : List Char, containsCIAux p h = true → License.patSearch p h = true := by
  intro h
  induction h with
  | nil =>
    intro hc
    simp only [containsCIAux] at hc
    simp only [License.patSearch]
    exact patMatchAt_of_prefixCI p [] hc
  | cons c cs ih =>
    intro hc
    simp only [containsCIAux, Bool.or_eq_true] at hc
    simp only [License.patSearch, Bool.or_eq_true]
    rcases hc with hc | hc
    · exact Or.inl (patMatchAt_of_prefixCI p (c :: cs) hc)
    · exact Or.inr (ih hc)

/-- The README match result, when present, is the suffix of the README
starting at the leftmost position where the heading regex matches. -/
theorem findHeadingSuffix_spec (cs : List Char) :
    ∀ s : List Char, License.findHeadingSuffix cs = some s →
      ∃ n, cs.drop n = s ∧ License.headingMatch (cs.drop n) = true ∧
        ∀ m < n, License.headingMatch (cs.drop m) = false := by
  induction cs with
  | nil =>
    intro s hs
    simp [License.findHeadingSuffix] at hs
  | cons c t ih =>
    intro s hs
    by_cases hm : License.headingMatch (c :: t) = true
    · have hse : s = c :: t := by
        simp only [License.findHeadingSuffix, if_pos hm, Option.some_inj] at hs
        exact hs.symm
      subst hse
      exact ⟨0, rfl, hm, fun m hm0 => absurd hm0 (by omega)⟩
    · have hs' : License.findHeadingSuffix t = some s := by
        simpa only [License.findHeadingSuffix, if_neg hm] using hs
      obtain ⟨n, h1, h2, h3⟩ := ih s hs'
      refine ⟨n + 1, by simpa using h1, by simpa using h2, ?_⟩
      intro m hmn
      cases m with
      | zero => simpa using hm
      | succ m' =>
        have : m' < n := by omega
        simpa using h3 m' this

/-- Claim C8 (amended): the README extraction takes the text from the
leftmost heading matching `Licence` (British spelling) or `Legal` to the end
of the file (a `## License` heading is not matched); the combined text — the
section plus the first LICENSE-like file — scores via the case-insensitive
allow-list regex, whose unescaped `.` matches any single character except a
line terminator (so a plain case-insensitive occurrence of an identifier
always scores `1`, while a line break in place of the dot, as in
`GPL-2` + LF + `0`, does not match); absent or empty license text scores
`0`; only a clone or filesystem error yields `-1`. -/
theorem license_extraction_amended (dir : List (String × String)) (readme : String) :
    (∀ s, License.extractLicenseSection readme = some s →
      ∃ n, readme.data.drop n = s.data ∧
        License.headingMatch (readme.data.drop n) = true ∧
        ∀ m < n, License.headingMatch (readme.data.drop m) = false) ∧
    (License.extractLicenseInfo dir = none → License.score (.ok dir) = 0) ∧
    (∀ info, License.extractLicenseInfo dir = some info →
      (info = "" → License.score (.ok dir) = 0) ∧
      (info ≠ "" →
        License.score (.ok dir) = License.checkLicenseCompatibility info ∧
        ∀ pat ∈ License.compatibleLicenses,
          containsCIAux pat.data info.data = true →
            License.score (.ok dir) = 1)) ∧
    (∀ left, License.score (.cloneFail left) = -1) ∧
    License.score .stepFail = -1 ∧
    License.score (.ok [("LICENSE", "GPL-2\n0")]) = 0 := by
  refine ⟨?_, ?_, ?_, fun _ => rfl, rfl, by decide⟩
  · intro s hs
    simp only [License.extractLicenseSection, Option.map_eq_some'] at hs
    obtain ⟨cs, hcs, hmk⟩ := hs
    obtain ⟨n, h1, h2, h3⟩ := findHeadingSuffix_spec readme.toList cs hcs
    subst hmk
    exact ⟨n, h1, h2, h3⟩
  · intro hnone
    simp only [License.score, hnone]
  · intro info hinfo
    constructor
    · intro hempty
      simp only [License.score, hinfo, if_pos hempty]
    · intro hne
      have hsc : License.score (.ok dir) = License.checkLicenseCompatibility info := by
        simp only [License.score, hinfo, if_neg hne]
      refine ⟨hsc, ?_⟩
      intro pat hmem hsub
      rw [hsc]
      unfold License.checkLicenseCompatibility
      rw [if_pos]
      rw [List.any_eq_true]
      exact ⟨pat, hmem, by
        have := patSearch_of_containsCIAux pat.data info.data hsub
        simpa [String.toList] using this⟩

/-- Witness for claim C8 (amended) at a concrete checkout: a README whose
section heading uses the code's spelling `Licence` and mentions `MIT`
scores `1`. -/
theorem license_extraction_amended_witness :
    License.score (.ok [("README.md", "## Licence\nMIT")]) = 1 :=
  (((license_extraction_amended [("README.md", "## Licence\nMIT")] "").2.2.1
      "## Licence\nMIT" (by decide)).2 (by decide)).2 "MIT" (by decide) (by decide)
